import Mathlib

/-!
Verification of the geobind mesh feature/label pipeline.

The definitions below are shallow embeddings of the Python source:
* `src/geobind/mesh/mesh.py` (class `Mesh`)
* `src/bin/processInterfaces.py` (function `main`, the per-structure batch loop)

Python exceptions are modelled with `Except`, the numpy array bundle with a
finite map `String → Option Val`, the filesystem with lists of path names, and
the mutable CLI `refresh` flag with explicit state threading.
-/

/-- Python runtime errors that the modelled code can raise. -/
inductive PyErr where
  | indexError
  | keyError
  deriving DecidableEq, Repr

/-! ### C10: `Mesh.undirected_edge_indices` cache access (mesh.py lines 152-170)

`vertex_adjacency_matrix` populates `self.cache["vertex_adjacency_matrix"]` on
first access; `undirected_edge_indices` reads that cache key directly (without
going through the property), so on a fresh cache it raises `KeyError`. -/

/-- A sparse matrix in COO layout, keeping only the `row`/`col` index arrays
that `undirected_edge_indices` reads (mesh.py lines 165-168). -/
structure CooMatrix where
  row : List Nat
  col : List Nat
  deriving DecidableEq, Repr

/-- The `self.cache` dict of a `Mesh`, restricted to the two keys involved:
`"vertex_adjacency_matrix"` and `"undirected_edge_indices"`.  `none` models
absence of the key. -/
structure MeshCache where
  vam : Option CooMatrix
  uei : Option (List (Nat × Nat))
  deriving DecidableEq, Repr

/-- `self.cache = {}` as set by `Mesh.__reset` (mesh.py line 229). -/
def emptyCache : MeshCache := ⟨none, none⟩

/-- The `vertex_adjacency_matrix` property (mesh.py lines 152-158): if the key
is not in the cache, compute the matrix (modelled as the given `compute`
value, since the conversion from the networkx graph is external) and store it;
return the cached value. -/
def vertex_adjacency_matrix (compute : CooMatrix) (c : MeshCache) :
    MeshCache × CooMatrix :=
  match c.vam with
  | some m => (c, m)
  | none => ({ c with vam := some compute }, compute)

/-- The `undirected_edge_indices` property (mesh.py lines 160-170): if the key
is not in the cache it builds `np.stack` of
`self.cache["vertex_adjacency_matrix"].row/.col` — a direct dict subscript
that raises `KeyError` when the adjacency matrix was never cached. -/
def undirected_edge_indices (c : MeshCache) :
    Except PyErr (MeshCache × List (Nat × Nat)) :=
  match c.uei with
  | some e => .ok (c, e)
  | none =>
    match c.vam with
    | none => .error .keyError
    | some m =>
      let e := m.row.zip m.col
      .ok ({ c with uei := some e }, e)

/-! ### C9: `Mesh.save` (mesh.py lines 276-288)

The existence check uses `os.path.join(directory, file_name)` but the actual
`self.mesh.export` call is given the bare `file_name`; the function returns
the joined path only on the early-return branch and otherwise falls off the
end (returning Python `None`). -/

/-- `os.path.join(d, f)` for two components: an absolute second component
replaces the first; an empty or separator-terminated first component is not
followed by an extra separator. -/
def ospathJoin (d f : List Char) : List Char :=
  if f.head? = some '/' then f
  else if d = [] then f
  else if d.getLast? = some '/' then d ++ f
  else d ++ '/' :: f

/-- Result of a call to `Mesh.save`: the returned value (`none` models Python
`None`) and the path passed to `self.mesh.export`, if the export happened. -/
structure SaveEffect where
  ret : Option (List Char)
  wrote : Option (List Char)
  deriving DecidableEq, Repr

/-- Lines 278-279 of mesh.py: the effective file name, defaulting to
`"{}.{}".format(self.name, file_format)`. -/
def saveFileName (name : List Char) (file_name : Option (List Char))
    (file_format : List Char) : List Char :=
  match file_name with
  | none => name ++ '.' :: file_format
  | some f => f

/-- `Mesh.save(directory, file_name, file_format, overwrite)` (mesh.py lines
276-288).  `fs` is the set of existing file paths (`os.path.exists`): the
joined path is checked for existence, the early return hands it back, and the
export writes to the bare file name. -/
def meshSave (fs : List (List Char)) (name directory : List Char)
    (file_name : Option (List Char)) (file_format : List Char)
    (overwrite : Bool) : SaveEffect :=
  if ospathJoin directory (saveFileName name file_name file_format) ∈ fs ∧
      overwrite = false
  then ⟨some (ospathJoin directory (saveFileName name file_name file_format)),
    none⟩
  else ⟨none, some (saveFileName name file_name file_format)⟩

/-! ### C8: blank lines in the structures list (processInterfaces.py lines 98-102)

The loop strips each line and immediately evaluates `fileName[0] == '#'`;
indexing an empty Python string raises `IndexError`, which propagates out of
`main` and aborts the run. -/

/-- Python `str.isspace` characters relevant to `str.strip()`. -/
def pySpace (c : Char) : Bool :=
  c = ' ' || c = '\t' || c = '\n' || c = '\r' || c = '\x0b' || c = '\x0c'

/-- Python `str.strip()`: drop leading and trailing whitespace. -/
def pyStrip (s : List Char) : List Char :=
  ((s.dropWhile pySpace).reverse.dropWhile pySpace).reverse

/-- What the loop body decides for one line of the structures file. -/
inductive LineResult where
  | skip
  | process (name : List Char)
  deriving DecidableEq, Repr

/-- Lines 99-102 of processInterfaces.py: strip the line, then test
`fileName[0] == '#'`.  On an empty stripped line the subscript raises
`IndexError`. -/
def lineStep (line : List Char) : Except PyErr LineResult :=
  let fileName := pyStrip line
  match fileName with
  | [] => .error .indexError
  | c :: _ => if c = '#' then .ok .skip else .ok (.process fileName)

/-- The batch loop's treatment of the line list: comment lines are skipped,
other lines are processed, and an uncaught exception aborts the whole loop
(there is no `try`/`except` in `main`). -/
def batchLines (lines : List (List Char)) : Except PyErr (List (List Char)) :=
  match lines with
  | [] => .ok []
  | l :: ls =>
    match lineStep l with
    | .error e => .error e
    | .ok .skip => batchLines ls
    | .ok (.process n) =>
      match batchLines ls with
      | .error e => .error e
      | .ok rest => .ok (n :: rest)

/-! ### Theorems for C8, C9, C10 -/

theorem dropWhile_eq_nil_of_forall {p : Char → Bool} :
    ∀ (l : List Char), (∀ c ∈ l, p c = true) → l.dropWhile p = [] := by
  intro l h
  induction l with
  | nil => rfl
  | cons c cs ih =>
    rw [List.dropWhile_cons, h c (List.mem_cons_self c cs)]
    exact ih fun x hx => h x (List.mem_cons_of_mem c hx)

theorem pyStrip_eq_nil_of_space (line : List Char)
    (h : ∀ c ∈ line, pySpace c = true) : pyStrip line = [] := by
  unfold pyStrip
  rw [dropWhile_eq_nil_of_forall line h]
  rfl

/-- C8: a structures-file line that is empty or all whitespace makes the loop
raise `IndexError` at the `fileName[0]` subscript, aborting the whole run
(any following lines are never processed) instead of being skipped. -/
theorem c8_blank_line_error (line : List Char)
    (h : ∀ c ∈ line, pySpace c = true) (rest : List (List Char)) :
    lineStep line = .error .indexError ∧
    batchLines (line :: rest) = .error .indexError := by
  have hs : pyStrip line = [] := pyStrip_eq_nil_of_space line h
  constructor
  · unfold lineStep
    rw [hs]
  · unfold batchLines lineStep
    rw [hs]

/-- Witness for C8 at the concrete line `" \t"` followed by a valid line. -/
theorem c8_blank_line_error_witness :
    (∀ c ∈ [' ', '\t'], pySpace c = true) ∧
    (lineStep [' ', '\t'] = .error .indexError ∧
      batchLines [[' ', '\t'], ['a']] = .error .indexError) :=
  ⟨by decide, c8_blank_line_error [' ', '\t'] (by decide) [['a']]⟩

/-- C9: `Mesh.save` returns the joined `directory/file_name` path exactly when
that path already exists and `overwrite` is false, in which case nothing is
written; in every case where it writes, it exports to the bare file name
(built without the `directory` argument) and returns `None`. -/
theorem c9_save_behavior (fs : List (List Char)) (name directory : List Char)
    (file_name : Option (List Char)) (file_format : List Char)
    (overwrite : Bool) :
    (((meshSave fs name directory file_name file_format overwrite).ret =
        some (ospathJoin directory (saveFileName name file_name file_format)) ∧
      (meshSave fs name directory file_name file_format overwrite).wrote =
        none) ↔
      (ospathJoin directory (saveFileName name file_name file_format) ∈ fs ∧
        overwrite = false)) ∧
    (((meshSave fs name directory file_name file_format overwrite).ret =
        none ∧
      (meshSave fs name directory file_name file_format overwrite).wrote =
        some (saveFileName name file_name file_format)) ↔
      ¬(ospathJoin directory (saveFileName name file_name file_format) ∈ fs ∧
        overwrite = false)) := by
  by_cases h : ospathJoin directory (saveFileName name file_name file_format) ∈
      fs ∧ overwrite = false
  · rw [meshSave, if_pos h]
    simp [h]
  · rw [meshSave, if_neg h]
    simp [h]

/-- C10: on a fresh cache, `undirected_edge_indices` raises `KeyError`
because it subscripts the cache dict directly; once
`vertex_adjacency_matrix` has been accessed, it succeeds and returns the
stacked row/col index pairs. -/
theorem c10_edge_indices_cache (g : CooMatrix) :
    undirected_edge_indices emptyCache = .error .keyError ∧
    undirected_edge_indices (vertex_adjacency_matrix g emptyCache).1 =
      .ok (⟨some g, some (g.row.zip g.col)⟩, g.row.zip g.col) :=
  ⟨rfl, rfl⟩

/-! ### C1: the mesh generation branch and the mutable refresh flag
(processInterfaces.py lines 119-144)

With `--refresh` the mesh is regenerated unconditionally.  Without it, the
mesh is loaded when `MESH_FILES_PATH/<id>_mesh.off` exists; otherwise it is
generated and `ARGS.refresh = True` is executed (line 144), mutating the
shared flag for all remaining loop iterations. -/

/-- What happened to the mesh of one structure. -/
inductive MeshAction where
  | loaded
  | generated
  deriving DecidableEq, Repr

/-- One structure's mesh branch (lines 119-144): takes the current value of
`ARGS.refresh` and whether this structure's cached mesh file exists; returns
the action taken and the value of `ARGS.refresh` after the branch. -/
def meshStep (refresh : Bool) (meshFileExists : Bool) : MeshAction × Bool :=
  if refresh then (.generated, refresh)
  else if meshFileExists then (.loaded, refresh)
  else (.generated, true)

/-- The mesh branch iterated over the run's structure list, each structure
represented by whether its cached mesh file exists; the refresh flag is
threaded exactly as the mutable `ARGS.refresh` is. -/
def meshRun (refresh : Bool) : List Bool → List MeshAction
  | [] => []
  | e :: es =>
    let s := meshStep refresh e
    s.1 :: meshRun s.2 es

/-- C1 counterexample: a run started without the refresh flag, over two
structures where the first has no cached mesh file and the second has one.
The claim says the second structure's mesh is regenerated only if its own
cached mesh file does not exist — but the code regenerates it anyway, because
generating the first structure's mesh set the shared `ARGS.refresh` flag. -/
theorem c1_refresh_counterexample :
    meshRun false [false, true] = [.generated, .generated] := rfl

/-- Characterization used by the amended C1: in a run started with the
refresh flag `r`, structure `i`'s mesh is generated (rather than loaded) iff
`r` was set, or structure `i`'s own cached mesh file is missing, or some
earlier structure's cached mesh file was missing. -/
theorem meshRun_generated_iff (r : Bool) :
    ∀ (es : List Bool) (i : Nat), i < es.length →
      ((meshRun r es).getD i .loaded = .generated ↔
        (r = true ∨ es.getD i true = false ∨ ∃ j < i, es.getD j true = false)) := by
  intro es
  induction es generalizing r with
  | nil => intro i hi; exact absurd hi (by simp)
  | cons e es ih =>
    intro i hi
    match i with
    | 0 =>
      simp only [meshRun, List.getD_cons_zero]
      cases r <;> cases e <;> simp [meshStep]
    | Nat.succ i =>
      have hi' : i < es.length := by simpa using hi
      simp only [meshRun, List.getD_cons_succ]
      rw [ih ((meshStep r e).2) i hi']
      have hstep : (meshStep r e).2 = (r || !e) := by
        cases r <;> cases e <;> rfl
      rw [hstep]
      constructor
      · rintro (hr | hcur | ⟨j, hj, hjv⟩)
        · rcases Bool.or_eq_true_iff.mp hr with h | h
          · exact Or.inl h
          · exact Or.inr (Or.inr ⟨0, Nat.succ_pos i, by simpa using h⟩)
        · exact Or.inr (Or.inl hcur)
        · exact Or.inr (Or.inr ⟨j + 1, by omega, by simpa using hjv⟩)
      · rintro (hr | hcur | ⟨j, hj, hjv⟩)
        · exact Or.inl (by simp [hr])
        · exact Or.inr (Or.inl hcur)
        · match j with
          | 0 =>
            refine Or.inl ?_
            simp only [List.getD_cons_zero] at hjv
            simp [hjv]
          | Nat.succ j =>
            refine Or.inr (Or.inr ⟨j, by omega, by simpa using hjv⟩)

/-- Amended C1: for a run started without the refresh flag, a structure's
mesh is regenerated exactly when its own cached mesh file is missing or some
earlier structure in the run had a missing cached mesh file (the shared
`ARGS.refresh` flag is set at line 144 and never reset, so it is sticky for
the rest of the run). -/
theorem c1_refresh_amended (es : List Bool) (i : Nat) (hi : i < es.length) :
    (meshRun false es).getD i .loaded = .generated ↔
      (es.getD i true = false ∨ ∃ j < i, es.getD j true = false) := by
  rw [meshRun_generated_iff false es i hi]
  simp

/-- Witness for the amended C1 at the concrete run `[false, true]`, `i = 1`. -/
theorem c1_refresh_amended_witness :
    (1 < ([false, true] : List Bool).length) ∧
    ((meshRun false [false, true]).getD 1 .loaded = .generated ↔
      (([false, true] : List Bool).getD 1 true = false ∨
        ∃ j < 1, ([false, true] : List Bool).getD j true = false)) :=
  ⟨by decide, c1_refresh_amended [false, true] 1 (by decide)⟩

/-! ### C2: the batch loop has no per-structure exception handling
(processInterfaces.py lines 98-264)

The body of `for fileName in open(listFile):` contains no `try`/`except`;
`PROCESSED.write(...)` (line 252) runs only after a structure's bundle was
saved.  An exception raised while processing a structure therefore propagates
out of `main` and aborts the run, and no later line is processed. -/

/-- The batch loop: `process` is the whole per-structure body producing a
manifest entry, `Except.error` models an uncaught exception.  Returns the
manifest entries written and the exception (if any) that aborted the run. -/
def runBatch {α β ε : Type} (process : α → Except ε β) :
    List α → List β × Option ε
  | [] => ([], none)
  | x :: xs =>
    match process x with
    | .error e => ([], some e)
    | .ok b =>
      let r := runBatch process xs
      (b :: r.1, r.2)

/-- Is an `Except` a success? -/
def exOk {ε β : Type} : Except ε β → Bool
  | .ok _ => true
  | .error _ => false

/-- The success value of an `Except`, if any. -/
def exVal {ε β : Type} : Except ε β → Option β
  | .ok b => some b
  | .error _ => none

/-- C2 counterexample: with a per-structure processor that fails on structure
`0` and succeeds on structure `1`, the run over `[0, 1]` aborts at the first
structure: the manifest is empty even though structure `1` would have
succeeded, contradicting the claim that the loop logs the failure, continues,
and lists the later successful bundle. -/
theorem c2_batch_counterexample :
    runBatch (fun n : Nat => if n = 0 then .error "bad" else .ok n) [0, 1] =
      ([], some "bad") ∧
    (fun n : Nat => if n = 0 then (.error "bad" : Except String Nat) else .ok n) 1 =
      .ok 1 :=
  ⟨rfl, rfl⟩

/-- Amended C2: a per-structure exception aborts the whole run at that
structure; the manifest lists exactly the bundles of the structures processed
before the first failure (one per successfully processed line), and the run
finishes without an exception iff every listed structure processes
successfully. -/
theorem c2_batch_amended {α β ε : Type} (process : α → Except ε β)
    (items : List α) :
    (runBatch process items).1 =
      (items.takeWhile fun x => exOk (process x)).filterMap
        (fun x => exVal (process x)) ∧
    ((runBatch process items).2 = none ↔
      ∀ x ∈ items, exOk (process x) = true) := by
  induction items with
  | nil => simp [runBatch]
  | cons x xs ih =>
    cases hx : process x with
    | error e =>
      simp [runBatch, hx, List.takeWhile_cons, exOk]
    | ok b =>
      simp only [runBatch, hx, List.takeWhile_cons, exOk, List.filterMap_cons,
        exVal]
      refine ⟨by simpa [exVal, hx] using congrArg (b :: ·) ih.1, ?_⟩
      rw [ih.2]
      constructor
      · intro h y hy
        rcases List.mem_cons.mp hy with rfl | hy
        · simp [hx, exOk]
        · exact h y hy
      · intro h y hy
        exact h y (List.mem_cons_of_mem x hy)

/-! ### C6: temporary per-structure files (processInterfaces.py lines 104-262)

`cleanProtein` (line 110) creates the PQR file and `protein.save()` (line
114) creates the PDB file; `os.remove(pdb)` / `os.remove(pqr)` run only as
the last two statements of the loop body, with no `try`/`finally`.  The loop
body is modelled as the ordered list of its file-relevant operations; an
exception at position `k` executes exactly the first `k` operations. -/

/-- A file-relevant operation of the loop body: create a file, remove a
file, or a computation step that touches no temporary file. -/
inductive FileOp where
  | create (f : List Char)
  | remove (f : List Char)
  | work (s : List Char)
  deriving DecidableEq, Repr

/-- The loop body of `main` (lines 104-262) as its ordered operations. -/
def iterationOps : List FileOp :=
  [ .work "StructureData".toList,        -- line 106
    .work "getEntities".toList,          -- line 107
    .create "pqr".toList,                -- line 110, cleanProtein writes the PQR file
    .create "pdb".toList,                -- line 114, protein.save() writes the PDB file
    .work "mesh".toList,                 -- lines 117-144
    .work "arrays".toList,               -- lines 148-157
    .work "features".toList,             -- lines 160-221
    .work "labels".toList,               -- lines 224-233
    .work "savez".toList,                -- lines 239-252
    .work "adjacency".toList,            -- lines 255-258
    .remove "pdb".toList,                -- line 261
    .remove "pqr".toList ]               -- line 262

/-- Effect of one operation on the set of existing temporary files. -/
def applyOp (fs : List (List Char)) : FileOp → List (List Char)
  | .create f => f :: fs
  | .remove f => fs.filter (fun g => g ≠ f)
  | .work _ => fs

/-- Temporary files existing after running a list of operations. -/
def runOps (ops : List FileOp) : List (List Char) :=
  ops.foldl applyOp []

/-- Temporary files left behind when an exception aborts the loop body just
before its operation number `k` (`k ≥ iterationOps.length` means the body ran
to completion). -/
def residualAfterFail (k : Nat) : List (List Char) :=
  runOps (iterationOps.take k)

/-- C6 counterexample: an exception raised during label computation
(operation 7 of the loop body, lines 224-233) leaves both the PDB and the PQR
temporary files behind, contradicting the claim that they are deleted on
every exit path of the iteration. -/
theorem c6_tempfile_counterexample :
    residualAfterFail 7 = ["pdb".toList, "pqr".toList] := by decide

/-- Amended C6: the temporary PDB and PQR files are removed only by the two
`os.remove` calls at the very end of the loop body; the iteration leaves no
residual file iff it either fails before the PQR file is created (first two
operations) or runs to completion — an exception at any intermediate point
leaks the files into later iterations. -/
theorem c6_tempfile_amended (k : Nat) :
    residualAfterFail k = [] ↔ (k ≤ 2 ∨ 12 ≤ k) := by
  by_cases h : k < 12
  · interval_cases k <;> simp_all <;> decide
  · have h12 : 12 ≤ k := by omega
    have hlen : iterationOps.length ≤ k := by
      simp [iterationOps]
      omega
    unfold residualAfterFail
    rw [List.take_of_length_le hlen]
    constructor
    · intro _
      exact Or.inr h12
    · intro _
      decide

/-! ### C7: `Mesh.remove_disconnected_components` (mesh.py lines 220-238)

`self.mesh.split()` yields the connected components; `np.argmax` over their
vertex counts picks the first index attaining the maximum; `__reset`
recomputes `num_vertices`, `num_faces`, `num_edges` from the retained
component. -/

/-- One connected component as returned by `trimesh.split`: its vertex, face
and edge lists (vertices as opaque ids, faces as index triples, edges as
index pairs — only the lengths matter here). -/
structure Component where
  vertices : List Nat
  faces : List (Nat × Nat × Nat)
  edges : List (Nat × Nat)
  deriving DecidableEq, Repr, Inhabited

/-- The mesh fields recomputed by `Mesh.__reset` (mesh.py lines 220-229). -/
structure MeshState where
  mesh : Component
  num_vertices : Nat
  num_faces : Nat
  num_edges : Nat
  deriving DecidableEq, Repr

/-- `Mesh.__reset` (mesh.py lines 220-229): recompute the stored counts from
the current mesh (the cache dict is cleared as well; it is not tracked
here). -/
def meshReset (m : Component) : MeshState :=
  ⟨m, m.vertices.length, m.faces.length, m.edges.length⟩

/-- `np.argmax` over a list of naturals: the first index attaining the
maximum value (numpy scans left to right and updates only on strictly larger
values). -/
def npArgmax : List Nat → Nat
  | [] => 0
  | x :: xs => if xs.getD (npArgmax xs) 0 > x then npArgmax xs + 1 else 0

/-- `Mesh.remove_disconnected_components` (mesh.py lines 231-238): keep the
component with the most vertices and reset the counts.  `components` is the
result of `self.mesh.split()`. -/
def remove_disconnected_components (components : List Component) : MeshState :=
  let sizes := components.map (fun c => c.vertices.length)
  meshReset (components.getD (npArgmax sizes) default)

theorem npArgmax_lt : ∀ (l : List Nat), l ≠ [] → npArgmax l < l.length := by
  intro l
  induction l with
  | nil => intro h; exact absurd rfl h
  | cons x xs ih =>
    intro _
    by_cases h : xs.getD (npArgmax xs) 0 > x
    · have hxs : xs ≠ [] := by
        intro hnil
        rw [hnil] at h
        exact absurd h (by simp)
      simp only [npArgmax, if_pos h, List.length_cons]
      exact Nat.succ_lt_succ (ih hxs)
    · simp only [npArgmax, if_neg h, List.length_cons]
      exact Nat.succ_pos _

theorem npArgmax_max : ∀ (l : List Nat), ∀ v ∈ l, v ≤ l.getD (npArgmax l) 0 := by
  intro l
  induction l with
  | nil => intro v hv; exact absurd hv (by simp)
  | cons x xs ih =>
    intro v hv
    by_cases h : xs.getD (npArgmax xs) 0 > x
    · simp only [npArgmax, if_pos h, List.getD_cons_succ]
      rcases List.mem_cons.mp hv with rfl | hv
      · exact Nat.le_of_lt h
      · exact ih v hv
    · simp only [npArgmax, if_neg h, List.getD_cons_zero]
      rcases List.mem_cons.mp hv with rfl | hv
      · exact Nat.le_refl v
      · exact Nat.le_trans (ih v hv) (Nat.le_of_not_lt h)

theorem npArgmax_first : ∀ (l : List Nat), ∀ j < npArgmax l,
    l.getD j 0 < l.getD (npArgmax l) 0 := by
  intro l
  induction l with
  | nil => intro j hj; exact absurd hj (by simp [npArgmax])
  | cons x xs ih =>
    intro j hj
    by_cases h : xs.getD (npArgmax xs) 0 > x
    · simp only [npArgmax, if_pos h] at hj ⊢
      rw [List.getD_cons_succ]
      match j with
      | 0 => rw [List.getD_cons_zero]; exact h
      | Nat.succ j =>
        rw [List.getD_cons_succ]
        exact ih j (Nat.lt_of_succ_lt_succ hj)
    · simp only [npArgmax, if_neg h] at hj
      exact absurd hj (Nat.not_lt_zero j)

/-- C7: after construction with component removal enabled, the retained mesh
is exactly the component with the most vertices — on ties, the first one in
the split order — and the stored vertex/face/edge counts are recomputed from
that retained component. -/
theorem c7_largest_component (components : List Component)
    (h : components ≠ []) :
    let st := remove_disconnected_components components
    (∃ i, i < components.length ∧
      st.mesh = components.getD i default ∧
      (∀ c ∈ components, c.vertices.length ≤ st.mesh.vertices.length) ∧
      (∀ j < i, (components.getD j default).vertices.length <
        st.mesh.vertices.length)) ∧
    st.num_vertices = st.mesh.vertices.length ∧
    st.num_faces = st.mesh.faces.length ∧
    st.num_edges = st.mesh.edges.length := by
  intro st
  have hmap : (components.map (fun c => c.vertices.length)) ≠ [] := by
    simpa using h
  have hlt := npArgmax_lt _ hmap
  rw [List.length_map] at hlt
  have hgetD : ∀ j, j < components.length →
      (components.map (fun c => c.vertices.length)).getD j 0 =
        (components.getD j default).vertices.length := by
    intro j hj
    rw [List.getD_eq_getElem _ _ (by simpa using hj),
      List.getElem_map, List.getD_eq_getElem _ _ hj]
  have hmesh : st.mesh =
      components.getD (npArgmax (components.map (fun c => c.vertices.length)))
        default := rfl
  refine ⟨⟨npArgmax (components.map (fun c => c.vertices.length)), hlt,
    hmesh, ?_, ?_⟩, rfl, rfl, rfl⟩
  · intro c hc
    have hmem : c.vertices.length ∈ components.map (fun c => c.vertices.length) :=
      List.mem_map_of_mem _ hc
    have := npArgmax_max _ _ hmem
    rwa [hgetD _ hlt] at this
  · intro j hj
    have hjlt : j < components.length :=
      Nat.lt_trans hj hlt
    have := npArgmax_first (components.map (fun c => c.vertices.length)) j hj
    rwa [hgetD _ hlt, hgetD _ hjlt] at this

/-- Witness for C7 on a concrete three-component split with a tie for the
largest component. -/
theorem c7_largest_component_witness :
    (([⟨[1], [], []⟩, ⟨[2, 3], [(0, 1, 0)], [(0, 1)]⟩,
        ⟨[4, 5], [], []⟩] : List Component) ≠ []) ∧
    (let st := remove_disconnected_components
      [⟨[1], [], []⟩, ⟨[2, 3], [(0, 1, 0)], [(0, 1)]⟩, ⟨[4, 5], [], []⟩]
    (∃ i, i < ([⟨[1], [], []⟩, ⟨[2, 3], [(0, 1, 0)], [(0, 1)]⟩,
        ⟨[4, 5], [], []⟩] : List Component).length ∧
      st.mesh = ([⟨[1], [], []⟩, ⟨[2, 3], [(0, 1, 0)], [(0, 1)]⟩,
        ⟨[4, 5], [], []⟩] : List Component).getD i default ∧
      (∀ c ∈ ([⟨[1], [], []⟩, ⟨[2, 3], [(0, 1, 0)], [(0, 1)]⟩,
        ⟨[4, 5], [], []⟩] : List Component),
        c.vertices.length ≤ st.mesh.vertices.length) ∧
      (∀ j < i, (([⟨[1], [], []⟩, ⟨[2, 3], [(0, 1, 0)], [(0, 1)]⟩,
        ⟨[4, 5], [], []⟩] : List Component).getD j default).vertices.length <
        st.mesh.vertices.length)) ∧
    st.num_vertices = st.mesh.vertices.length ∧
    st.num_faces = st.mesh.faces.length ∧
    st.num_edges = st.mesh.edges.length) :=
  ⟨by decide, c7_largest_component _ (by decide)⟩

/-! ### C3 / C4: the bundle merge step (processInterfaces.py lines 146-252)

The per-structure `arrays` dict: loaded from the existing `.npz` bundle when
it exists and refresh is off (lines 148-152), then `V`/`F`/`name` (and `N`
when the mesh has vertex normals) are assigned from the current mesh (lines
153-157); `update_features` (line 160) and `update_labels` (line 224) decide
what is recomputed; the feature writes are lines 240-242, the label writes
lines 245-247, and `np.savez_compressed(fname, **arrays)` persists the whole
dict (line 250). -/

/-- Opaque stand-in for a numpy array value stored in the bundle. -/
abbrev Val := List Int

/-- The bundle / `arrays` dict: a map from key string to array. -/
abbrev Bundle := String → Option Val

/-- The mesh data read in lines 153-157: `mesh.vertices`, `mesh.faces` and
`mesh.vertex_normals` (`None` when absent). -/
structure MeshData where
  V : Val
  F : Val
  N : Option Val
  deriving DecidableEq, Repr

/-- The freshly computed feature matrix and names (lines 240-242). -/
structure ComputedFeatures where
  X : Val
  feature_names : Val
  deriving DecidableEq, Repr

/-- The freshly computed label vector and class vocabulary (lines 245-247). -/
structure ComputedLabels where
  Y : Val
  classes : Val
  deriving DecidableEq, Repr

/-- Python dict assignment `arrays[k] = v`. -/
def store (b : Bundle) (k : String) (v : Val) : Bundle :=
  fun s => if s = k then some v else b s

/-- Lines 148-152: `arrays = dict(np.load(fname))` when the bundle file
exists and refresh is off, else `arrays = {}`. -/
def loadedArrays (fexists refresh : Bool) (existing : Bundle) : Bundle :=
  if fexists && !refresh then existing else fun _ => none

/-- Lines 153-157: assign `V`, `F`, `name`, and `N` when the mesh has vertex
normals. -/
def withGeometry (arrays : Bundle) (mesh : MeshData) (protein_id : Val) :
    Bundle :=
  match mesh.N with
  | some n =>
    store (store (store (store arrays "V" mesh.V) "F" mesh.F) "name" protein_id)
      "N" n
  | none => store (store (store arrays "V" mesh.V) "F" mesh.F) "name" protein_id

/-- The `arrays` dict right after the geometry assignments, the state in
which both update flags are evaluated. -/
def effArrays (fexists refresh : Bool) (existing : Bundle) (mesh : MeshData)
    (protein_id : Val) : Bundle :=
  withGeometry (loadedArrays fexists refresh existing) mesh protein_id

/-- Line 160: `update_features = (not ARGS.no_features) and (ARGS.refresh or
('X' not in arrays))`. -/
def update_features (no_features refresh : Bool) (arrays : Bundle) : Bool :=
  !no_features && (refresh || (arrays "X").isNone)

/-- Line 224: `update_labels = (not ARGS.no_labels) and (ARGS.refresh or
(label_names not in arrays))`. -/
def update_labels (no_labels refresh : Bool) (label_names : String)
    (arrays : Bundle) : Bool :=
  !no_labels && (refresh || (arrays label_names).isNone)

/-- Lines 239-242: write `X` and `feature_names` when features were
recomputed. -/
def featStage (fexists refresh no_features : Bool) (existing : Bundle)
    (mesh : MeshData) (pid : Val) (feats : ComputedFeatures) : Bundle :=
  if update_features no_features refresh (effArrays fexists refresh existing mesh pid)
  then store (store (effArrays fexists refresh existing mesh pid) "X" feats.X)
    "feature_names" feats.feature_names
  else effArrays fexists refresh existing mesh pid

/-- The whole merge: the dict passed to `np.savez_compressed` at line 250
(label writes of lines 245-247 applied on top of the feature stage; both
update flags are evaluated on the post-geometry dict, exactly as in the
source where they are computed before any `X`/`Y` write). -/
def bundleStep (fexists refresh no_features no_labels : Bool)
    (existing : Bundle) (mesh : MeshData) (pid : Val) (label_names : String)
    (feats : ComputedFeatures) (labs : ComputedLabels) : Bundle :=
  if update_labels no_labels refresh label_names
      (effArrays fexists refresh existing mesh pid)
  then store
    (store (featStage fexists refresh no_features existing mesh pid feats)
      label_names labs.Y)
    (label_names ++ "_classes") labs.classes
  else featStage fexists refresh no_features existing mesh pid feats

theorem store_eq (b : Bundle) (k : String) (v : Val) : store b k v k = some v :=
  if_pos rfl

theorem store_ne (b : Bundle) (k : String) (v : Val) (s : String) (h : s ≠ k) :
    store b k v s = b s := if_neg h

/-- A key of the shape `"Y_" ++ a` starts with the character `Y`. -/
theorem yKey_head (a : String) : ("Y_" ++ a).data.head? = some 'Y' := by
  rw [String.data_append]
  rfl

/-- A key of the shape `"Y_" ++ a` differs from any key not starting in `Y`. -/
theorem yKey_ne {a s : String} (hs : s.data.head? ≠ some 'Y') :
    ("Y_" ++ a) ≠ s :=
  fun h => hs (h ▸ yKey_head a)

theorem yKey_inj {a b : String} (h : ("Y_" ++ a) = ("Y_" ++ b)) : a = b := by
  have hd := congrArg String.data h
  rw [String.data_append, String.data_append] at hd
  exact String.ext (List.append_cancel_left hd)

theorem stringAppendAssoc (a b c : String) : (a ++ b) ++ c = a ++ (b ++ c) := by
  apply String.ext
  rw [String.data_append, String.data_append, String.data_append,
    String.data_append, List.append_assoc]

/-- The geometry assignments touch only `V`, `F`, `name`, `N`; with the
bundle file present and refresh off, every other key still holds its loaded
value. -/
theorem effArrays_ne (existing : Bundle) (mesh : MeshData) (pid : Val)
    (s : String) (hV : s ≠ "V") (hF : s ≠ "F") (hname : s ≠ "name")
    (hN : s ≠ "N") :
    effArrays true false existing mesh pid s = existing s := by
  unfold effArrays withGeometry loadedArrays
  cases mesh.N <;>
    simp [store, hV, hF, hname, hN]

theorem effArrays_V (fe r : Bool) (ex : Bundle) (mesh : MeshData) (pid : Val) :
    effArrays fe r ex mesh pid "V" = some mesh.V := by
  unfold effArrays withGeometry
  cases mesh.N <;> simp [store]

theorem effArrays_F (fe r : Bool) (ex : Bundle) (mesh : MeshData) (pid : Val) :
    effArrays fe r ex mesh pid "F" = some mesh.F := by
  unfold effArrays withGeometry
  cases mesh.N <;> simp [store]

theorem effArrays_name (fe r : Bool) (ex : Bundle) (mesh : MeshData)
    (pid : Val) :
    effArrays fe r ex mesh pid "name" = some pid := by
  unfold effArrays withGeometry
  cases mesh.N <;> simp [store]

theorem effArrays_N (fe r : Bool) (ex : Bundle) (mesh : MeshData) (pid : Val)
    (n : Val) (hn : mesh.N = some n) :
    effArrays fe r ex mesh pid "N" = some n := by
  unfold effArrays withGeometry
  rw [hn]
  simp [store]

theorem effArrays_N_none (ex : Bundle) (mesh : MeshData) (pid : Val)
    (hn : mesh.N = none) :
    effArrays true false ex mesh pid "N" = ex "N" := by
  unfold effArrays withGeometry loadedArrays
  rw [hn]
  simp [store]

/-- C3: with refresh off and the bundle file present with its features group,
recomputing only labels (a fresh classifier name) leaves `X` and
`feature_names` exactly as loaded, writes the new `Y_<name>` entry, and keeps
a prior `Y_<othername>` entry.  The two inequality hypotheses exclude the
degenerate classifier names that would collide with the written keys. -/
theorem c3_bundle_merge_preserves (no_features : Bool) (existing : Bundle)
    (mesh : MeshData) (pid : Val) (cname oname : String)
    (feats : ComputedFeatures) (labs : ComputedLabels) (x fn yo : Val)
    (hX : existing "X" = some x) (hFN : existing "feature_names" = some fn)
    (hnew : existing ("Y_" ++ cname) = none)
    (hold : existing ("Y_" ++ oname) = some yo)
    (hno : oname ≠ cname) (hnc : oname ≠ cname ++ "_classes") :
    let result := bundleStep true false no_features false existing mesh pid
      ("Y_" ++ cname) feats labs
    result "X" = some x ∧ result "feature_names" = some fn ∧
    result ("Y_" ++ cname) = some labs.Y ∧
    result ("Y_" ++ oname) = some yo := by
  intro result
  have haX : effArrays true false existing mesh pid "X" = some x :=
    (effArrays_ne existing mesh pid "X" (by decide) (by decide) (by decide)
      (by decide)).trans hX
  have haFN : effArrays true false existing mesh pid "feature_names" = some fn :=
    (effArrays_ne existing mesh pid "feature_names" (by decide) (by decide)
      (by decide) (by decide)).trans hFN
  have haC : effArrays true false existing mesh pid ("Y_" ++ cname) = none :=
    (effArrays_ne existing mesh pid ("Y_" ++ cname) (yKey_ne (by decide))
      (yKey_ne (by decide)) (yKey_ne (by decide)) (yKey_ne (by decide))).trans
      hnew
  have haO : effArrays true false existing mesh pid ("Y_" ++ oname) = some yo :=
    (effArrays_ne existing mesh pid ("Y_" ++ oname) (yKey_ne (by decide))
      (yKey_ne (by decide)) (yKey_ne (by decide)) (yKey_ne (by decide))).trans
      hold
  have huf : update_features no_features false
      (effArrays true false existing mesh pid) = false := by
    unfold update_features
    rw [haX]
    simp
  have hul : update_labels false false ("Y_" ++ cname)
      (effArrays true false existing mesh pid) = true := by
    unfold update_labels
    rw [haC]
    simp
  have hfeat : featStage true false no_features existing mesh pid feats =
      effArrays true false existing mesh pid := by
    unfold featStage
    rw [huf]
    simp
  have hres : result =
      store (store (effArrays true false existing mesh pid) ("Y_" ++ cname)
        labs.Y) (("Y_" ++ cname) ++ "_classes") labs.classes := by
    show bundleStep true false no_features false existing mesh pid
      ("Y_" ++ cname) feats labs = _
    unfold bundleStep
    rw [hul, hfeat]
    simp
  have hclasses : ("Y_" ++ cname) ++ "_classes" = "Y_" ++ (cname ++ "_classes") :=
    stringAppendAssoc "Y_" cname "_classes"
  refine ⟨?_, ?_, ?_, ?_⟩
  · rw [hres, store_ne _ _ _ _ (hclasses ▸ (yKey_ne (by decide)).symm),
      store_ne _ _ _ _ ((yKey_ne (by decide)).symm), haX]
  · rw [hres, store_ne _ _ _ _ (hclasses ▸ (yKey_ne (by decide)).symm),
      store_ne _ _ _ _ ((yKey_ne (by decide)).symm), haFN]
  · have h1 : ("Y_" ++ cname) ≠ ("Y_" ++ cname) ++ "_classes" := by
      rw [hclasses]
      intro h
      have := yKey_inj h
      have hlen := congrArg String.length this
      rw [String.length_append] at hlen
      have h8 : ("_classes" : String).length = 8 := rfl
      omega
    rw [hres, store_ne _ _ _ _ h1, store_eq]
  · have h1 : ("Y_" ++ oname) ≠ ("Y_" ++ cname) ++ "_classes" := by
      rw [hclasses]
      intro h
      exact hnc (yKey_inj h)
    have h2 : ("Y_" ++ oname) ≠ ("Y_" ++ cname) := by
      intro h
      exact hno (yKey_inj h)
    rw [hres, store_ne _ _ _ _ h1, store_ne _ _ _ _ h2, haO]

/-- Witness for C3 on a concrete bundle holding features and a prior label
set `Y_B`, adding labels under the new classifier name `A`. -/
theorem c3_bundle_merge_preserves_witness :
    (((fun s => if s = "X" then some [1] else if s = "feature_names" then
        some [2] else if s = "Y_B" then some [3] else none) : Bundle) "X" =
      some [1]) ∧
    (((fun s => if s = "X" then some [1] else if s = "feature_names" then
        some [2] else if s = "Y_B" then some [3] else none) : Bundle)
      "feature_names" = some [2]) ∧
    (((fun s => if s = "X" then some [1] else if s = "feature_names" then
        some [2] else if s = "Y_B" then some [3] else none) : Bundle)
      ("Y_" ++ "A") = none) ∧
    (((fun s => if s = "X" then some [1] else if s = "feature_names" then
        some [2] else if s = "Y_B" then some [3] else none) : Bundle)
      ("Y_" ++ "B") = some [3]) ∧
    ("B" ≠ "A") ∧ ("B" ≠ "A" ++ "_classes") ∧
    (let result := bundleStep true false false false
      ((fun s => if s = "X" then some [1] else if s = "feature_names" then
        some [2] else if s = "Y_B" then some [3] else none) : Bundle)
      ⟨[5], [6], none⟩ [11] ("Y_" ++ "A") ⟨[7], [8]⟩ ⟨[9], [10]⟩
    result "X" = some [1] ∧ result "feature_names" = some [2] ∧
    result ("Y_" ++ "A") = some ([9] : Val) ∧
    result ("Y_" ++ "B") = some [3]) :=
  ⟨by decide, by decide, by decide, by decide, by decide, by decide,
    c3_bundle_merge_preserves false _ ⟨[5], [6], none⟩ [11] "A" "B"
      ⟨[7], [8]⟩ ⟨[9], [10]⟩ [1] [2] [3] (by decide) (by decide) (by decide)
      (by decide) (by decide) (by decide)⟩

/-- A concrete fully populated bundle used to exercise the merge step:
features group present, labels present under classifier name `A`, stored
vertices `[0]`. -/
def exBundle : Bundle := fun s =>
  if s = "V" then some [0]
  else if s = "X" then some [1]
  else if s = "feature_names" then some [2]
  else if s = "Y_A" then some [3]
  else if s = "Y_A_classes" then some [4]
  else none

/-- A concrete loaded mesh whose vertices `[5]` differ from the stored
geometry of `exBundle`. -/
def exMesh : MeshData := ⟨[5], [6], none⟩

/-- Concrete freshly computed features. -/
def exFeats : ComputedFeatures := ⟨[7], [8]⟩

/-- Concrete freshly computed labels. -/
def exLabs : ComputedLabels := ⟨[9], [10]⟩

/-- C4 counterexample: a bundle that already holds the features group and the
label group `Y_A` (so that nothing is recomputed under refresh=false) is not
rewritten identically: the code unconditionally overwrites `V` (and `F`,
`name`, `N`) from the currently loaded mesh (lines 153-157), so when the
stored geometry differs from the loaded mesh the rewritten bundle differs
from the existing one. -/
theorem c4_noop_counterexample :
    bundleStep true false false false exBundle exMesh [11] ("Y_" ++ "A")
      exFeats exLabs "V" = some [5] ∧
    exBundle "V" = some [0] := by
  constructor
  · decide
  · decide

/-- Amended C4: with refresh off and the bundle file present with both the
features group and the configured label group, neither features nor labels
are recomputed, and every key other than the geometry keys `V`, `F`, `name`,
`N` is rewritten with its existing value; the rewrite is a true no-op exactly
when the stored geometry already agrees with the currently loaded mesh. -/
theorem c4_noop_amended (existing : Bundle) (mesh : MeshData) (pid : Val)
    (cname : String) (feats : ComputedFeatures) (labs : ComputedLabels)
    (x y : Val)
    (hX : existing "X" = some x) (hY : existing ("Y_" ++ cname) = some y) :
    update_features false false (effArrays true false existing mesh pid) =
      false ∧
    update_labels false false ("Y_" ++ cname)
      (effArrays true false existing mesh pid) = false ∧
    (∀ s, s ≠ "V" → s ≠ "F" → s ≠ "name" → s ≠ "N" →
      bundleStep true false false false existing mesh pid ("Y_" ++ cname)
        feats labs s = existing s) ∧
    (existing "V" = some mesh.V → existing "F" = some mesh.F →
      existing "name" = some pid →
      (∀ n, mesh.N = some n → existing "N" = some n) →
      bundleStep true false false false existing mesh pid ("Y_" ++ cname)
        feats labs = existing) := by
  have haX : effArrays true false existing mesh pid "X" = some x :=
    (effArrays_ne existing mesh pid "X" (by decide) (by decide) (by decide)
      (by decide)).trans hX
  have haY : effArrays true false existing mesh pid ("Y_" ++ cname) = some y :=
    (effArrays_ne existing mesh pid ("Y_" ++ cname) (yKey_ne (by decide))
      (yKey_ne (by decide)) (yKey_ne (by decide)) (yKey_ne (by decide))).trans
      hY
  have huf : update_features false false
      (effArrays true false existing mesh pid) = false := by
    unfold update_features
    rw [haX]
    simp
  have hul : update_labels false false ("Y_" ++ cname)
      (effArrays true false existing mesh pid) = false := by
    unfold update_labels
    rw [haY]
    simp
  have hres : bundleStep true false false false existing mesh pid
      ("Y_" ++ cname) feats labs = effArrays true false existing mesh pid := by
    unfold bundleStep featStage
    rw [huf, hul]
    simp
  refine ⟨huf, hul, ?_, ?_⟩
  · intro s hV hF hname hN
    rw [hres]
    exact effArrays_ne existing mesh pid s hV hF hname hN
  · intro hVe hFe hne hNe
    rw [hres]
    funext s
    by_cases hV : s = "V"
    · rw [hV, effArrays_V, hVe]
    · by_cases hF : s = "F"
      · rw [hF, effArrays_F, hFe]
      · by_cases hname : s = "name"
        · rw [hname, effArrays_name, hne]
        · by_cases hN : s = "N"
          · subst hN
            cases hn : mesh.N with
            | none => rw [effArrays_N_none existing mesh pid hn]
            | some n => rw [effArrays_N _ _ _ _ _ _ hn, hNe n hn]
          · exact effArrays_ne existing mesh pid s hV hF hname hN

/-- Witness for the amended C4 on the concrete bundle `exBundle`. -/
theorem c4_noop_amended_witness :
    (exBundle "X" = some [1]) ∧ (exBundle ("Y_" ++ "A") = some [3]) ∧
    (update_features false false (effArrays true false exBundle exMesh [11]) =
      false ∧
    update_labels false false ("Y_" ++ "A")
      (effArrays true false exBundle exMesh [11]) = false ∧
    (∀ s, s ≠ "V" → s ≠ "F" → s ≠ "name" → s ≠ "N" →
      bundleStep true false false false exBundle exMesh [11] ("Y_" ++ "A")
        exFeats exLabs s = exBundle s) ∧
    (exBundle "V" = some exMesh.V → exBundle "F" = some exMesh.F →
      exBundle "name" = some [11] →
      (∀ n, exMesh.N = some n → exBundle "N" = some n) →
      bundleStep true false false false exBundle exMesh [11] ("Y_" ++ "A")
        exFeats exLabs = exBundle)) :=
  ⟨by decide, by decide,
    c4_noop_amended exBundle exMesh [11] "A" exFeats exLabs [1] [3]
      (by decide) (by decide)⟩

/-! ### C5: `Mesh.findNeighbors` (mesh.py lines 261-274)

`findNeighbors(v, k)` recursively walks the vertex adjacency graph:
for each neighbor `n` of `v` other than the origin `vo`, it adds `n` to the
mutable set `nlist` and recurses with budget `k-1`; at `k == 0` it returns
immediately (leaving `nlist` unchanged, and returning Python `None` at the
top level).  The graph is modelled by its neighbor-list function
`G : Nat → List Nat` (the iteration order of
`self.vertex_adjacency_graph.neighbors(v)`). -/

/-- The recursive body of `findNeighbors` with all defaulted arguments
explicit: `fnAux G vo k v nlist` is the state of `nlist` after the call
`findNeighbors(v, k, nlist, vo)` returns. -/
def fnAux (G : Nat → List Nat) (vo : Nat) : Nat → Nat → Finset Nat → Finset Nat
  | 0, _, nlist => nlist
  | k+1, v, nlist =>
    (G v).foldl (fun acc n => if n = vo then acc else fnAux G vo k n (insert n acc)) nlist

/-- The top-level call `findNeighbors(v, k)` (defaults `nlist=None`,
`vo=None`): returns Python `None` when `k == 0`, else the accumulated set
starting from `nlist = set()` and `vo = v`. -/
def findNeighbors (G : Nat → List Nat) (v : Nat) (k : Nat) : Option (Finset Nat) :=
  if k = 0 then none else some (fnAux G v k v ∅)

/-- The vertices reachable from `v` in at most `k` adjacency hops
(including `v` itself): the specification-side notion of a `k`-hop
neighborhood. -/
def ball (G : Nat → List Nat) : Nat → Nat → Finset Nat
  | 0, v => {v}
  | k+1, v => insert v ((G v).toFinset.biUnion (fun n => ball G k n))

/-- The vertices other than `vo` reachable from `v` in one to `k` hops by a
walk that never revisits `vo`: the set `fnAux` actually accumulates. -/
def reachA (G : Nat → List Nat) (vo : Nat) : Nat → Nat → Finset Nat
  | 0, _ => ∅
  | k+1, v => ((G v).filter (fun n => decide (n ≠ vo))).toFinset.biUnion
      (fun n => insert n (reachA G vo k n))

/-- `WalkLe G v u k`: there is a walk from `v` to `u` of length at most
`k`. -/
inductive WalkLe (G : Nat → List Nat) : Nat → Nat → Nat → Prop
  | refl (v k : Nat) : WalkLe G v v k
  | step {v n u k : Nat} (hn : n ∈ G v) (hw : WalkLe G n u k) : WalkLe G v u (k + 1)

/-- `AvoidWalk G vo v u k`: there is a walk from `v` to `u` of length
between 1 and `k` whose vertices after the start are all distinct from
`vo`. -/
inductive AvoidWalk (G : Nat → List Nat) (vo : Nat) : Nat → Nat → Nat → Prop
  | single {v u k : Nat} (hu : u ∈ G v) (hne : u ≠ vo) : AvoidWalk G vo v u (k + 1)
  | cons {v n u k : Nat} (hn : n ∈ G v) (hne : n ≠ vo) (hw : AvoidWalk G vo n u k) :
      AvoidWalk G vo v u (k + 1)

theorem fnAux_foldl (G : Nat → List Nat) (vo k : Nat)
    (hk : ∀ v nlist, fnAux G vo k v nlist = nlist ∪ reachA G vo k v) :
    ∀ (l : List Nat) (S : Finset Nat),
      l.foldl (fun acc n => if n = vo then acc else fnAux G vo k n (insert n acc)) S =
        S ∪ (l.filter (fun n => decide (n ≠ vo))).toFinset.biUnion
          (fun n => insert n (reachA G vo k n)) := by
  intro l
  induction l with
  | nil => intro S; simp
  | cons n l ih =>
    intro S
    by_cases hn : n = vo
    · subst hn
      rw [List.foldl_cons, if_pos rfl, ih S, List.filter_cons_of_neg (by simp)]
    · rw [List.foldl_cons, if_neg hn, ih, hk n (insert n S),
        List.filter_cons_of_pos (by simpa using hn)]
      ext x
      simp only [Finset.mem_union, Finset.mem_insert, List.toFinset_cons,
        Finset.biUnion_insert]
      tauto

theorem fnAux_eq (G : Nat → List Nat) (vo : Nat) :
    ∀ (k v : Nat) (nlist : Finset Nat),
      fnAux G vo k v nlist = nlist ∪ reachA G vo k v := by
  intro k
  induction k with
  | zero => intro v nlist; simp [fnAux, reachA]
  | succ k ih =>
    intro v nlist
    rw [show fnAux G vo (k + 1) v nlist =
      (G v).foldl (fun acc n => if n = vo then acc else fnAux G vo k n (insert n acc))
        nlist from rfl]
    rw [fnAux_foldl G vo k ih (G v) nlist]
    rfl

theorem mem_ball (G : Nat → List Nat) :
    ∀ (k v u : Nat), u ∈ ball G k v ↔ WalkLe G v u k := by
  intro k
  induction k with
  | zero =>
    intro v u
    simp only [ball, Finset.mem_singleton]
    constructor
    · rintro rfl; exact WalkLe.refl u 0
    · intro h
      cases h with
      | refl => rfl
  | succ k ih =>
    intro v u
    simp only [ball, Finset.mem_insert, Finset.mem_biUnion, List.mem_toFinset]
    constructor
    · rintro (rfl | ⟨n, hn, hb⟩)
      · exact WalkLe.refl u (k + 1)
      · exact WalkLe.step hn ((ih n u).mp hb)
    · intro h
      cases h with
      | refl => exact Or.inl rfl
      | step hn hw => exact Or.inr ⟨_, hn, (ih _ u).mpr hw⟩

theorem mem_reachA (G : Nat → List Nat) (vo : Nat) :
    ∀ (k v u : Nat), u ∈ reachA G vo k v ↔ AvoidWalk G vo v u k := by
  intro k
  induction k with
  | zero =>
    intro v u
    simp only [reachA, Finset.not_mem_empty, false_iff]
    intro h
    cases h
  | succ k ih =>
    intro v u
    simp only [reachA, Finset.mem_biUnion, List.mem_toFinset, List.mem_filter,
      decide_eq_true_eq, Finset.mem_insert]
    constructor
    · rintro ⟨n, ⟨hn, hnvo⟩, rfl | hr⟩
      · exact AvoidWalk.single hn hnvo
      · exact AvoidWalk.cons hn hnvo ((ih n u).mp hr)
    · intro h
      cases h with
      | single hu hne => exact ⟨u, ⟨hu, hne⟩, Or.inl rfl⟩
      | cons hn hne hw => exact ⟨_, ⟨hn, hne⟩, Or.inr ((ih _ u).mpr hw)⟩

theorem avoidWalk_ne {G : Nat → List Nat} {vo v u k : Nat}
    (h : AvoidWalk G vo v u k) : u ≠ vo := by
  induction h with
  | single _ hne => exact hne
  | cons _ _ _ ih => exact ih

theorem avoidWalk_walkLe {G : Nat → List Nat} {vo v u k : Nat}
    (h : AvoidWalk G vo v u k) : WalkLe G v u k := by
  induction h with
  | single hu _ => exact WalkLe.step hu (WalkLe.refl _ _)
  | cons hn _ _ ih => exact WalkLe.step hn ih

theorem avoidWalk_succ {G : Nat → List Nat} {vo v u k : Nat}
    (h : AvoidWalk G vo v u k) : AvoidWalk G vo v u (k + 1) := by
  induction h with
  | single hu hne => exact AvoidWalk.single hu hne
  | cons hn hne _ ih => exact AvoidWalk.cons hn hne ih

theorem avoidWalk_le {G : Nat → List Nat} {vo v u k j : Nat} (hk : k ≤ j)
    (h : AvoidWalk G vo v u k) : AvoidWalk G vo v u j := by
  induction hk with
  | refl => exact h
  | step _ ih => exact avoidWalk_succ ih

theorem walkLe_avoid {G : Nat → List Nat} {vo v u k : Nat}
    (hw : WalkLe G v u k) :
    u ≠ vo →
      AvoidWalk G vo v u k ∨ u = v ∨ ∃ j, j ≤ k ∧ AvoidWalk G vo vo u j := by
  induction hw with
  | refl v k => intro _; exact Or.inr (Or.inl rfl)
  | @step v n w k hn hwalk ih =>
    intro hu
    rcases ih hu with h | h | ⟨j, hj, h⟩
    · by_cases hnvo : n = vo
      · subst hnvo
        exact Or.inr (Or.inr ⟨k, Nat.le_succ k, h⟩)
      · exact Or.inl (AvoidWalk.cons hn hnvo h)
    · subst h
      exact Or.inl (AvoidWalk.single hn hu)
    · exact Or.inr (Or.inr ⟨j, Nat.le_trans hj (Nat.le_succ k), h⟩)

theorem reachA_eq_ball (G : Nat → List Nat) (vo k : Nat) :
    reachA G vo k vo = ball G k vo \ {vo} := by
  ext u
  simp only [Finset.mem_sdiff, Finset.mem_singleton, mem_reachA, mem_ball]
  constructor
  · intro h
    exact ⟨avoidWalk_walkLe h, avoidWalk_ne h⟩
  · rintro ⟨hw, hu⟩
    rcases walkLe_avoid hw hu with h | h | ⟨j, hj, h⟩
    · exact h
    · exact absurd h hu
    · exact avoidWalk_le hj h

/-- C5: for every adjacency graph and vertex, `findNeighbors(v, 1)` returns
exactly the direct neighbors of `v`, never including `v` itself; and for
every `k ≥ 1`, `findNeighbors(v, k)` returns exactly the vertices reachable
from `v` within `k` adjacency hops, excluding `v`. -/
theorem c5_findNeighbors_spec (G : Nat → List Nat) (v k : Nat) (hk : 1 ≤ k) :
    findNeighbors G v 1 = some ((G v).toFinset \ {v}) ∧
    findNeighbors G v k = some (ball G k v \ {v}) := by
  have hmain : ∀ j, 1 ≤ j → findNeighbors G v j = some (ball G j v \ {v}) := by
    intro j hj
    unfold findNeighbors
    rw [if_neg (by omega)]
    rw [fnAux_eq G v j v ∅, Finset.empty_union, reachA_eq_ball]
  refine ⟨?_, hmain k hk⟩
  rw [hmain 1 (le_refl 1)]
  congr 1
  ext u
  simp only [Finset.mem_sdiff, Finset.mem_singleton, List.mem_toFinset, mem_ball]
  constructor
  · rintro ⟨hw, hu⟩
    refine ⟨?_, hu⟩
    cases hw with
    | refl => exact absurd rfl hu
    | step hn hw2 =>
      cases hw2 with
      | refl => exact hn
  · rintro ⟨hn, hu⟩
    exact ⟨WalkLe.step hn (WalkLe.refl _ _), hu⟩

/-- A concrete path graph 0 - 1 - 2 - 3 used by the C5 witness. -/
def Gex : Nat → List Nat
  | 0 => [1]
  | 1 => [0, 2]
  | 2 => [1, 3]
  | 3 => [2]
  | _ => []

/-- Witness for C5 on the path graph with origin `0` and `k = 2`. -/
theorem c5_findNeighbors_spec_witness :
    (1 ≤ 2) ∧
    (findNeighbors Gex 0 1 = some ((Gex 0).toFinset \ {0}) ∧
      findNeighbors Gex 0 2 = some (ball Gex 2 0 \ {0})) :=
  ⟨by decide, c5_findNeighbors_spec Gex 0 2 (by decide)⟩
